import Mathlib

/-!
Shallow embedding of `src/advanced-vector/vector.h` (templates `RawMemory<T>`
and `Vector<T>`).

Modelling conventions:

* A `RawMemory<T>` is modelled by its two data members: `buffer` (the owning
  pointer, `none` standing for `nullptr`, `some a` for a block at abstract
  address `a`) and `capacity`.
* A `Vector<T>` is modelled at the value level by the list `elems` of the live
  elements in slots `[0, size_)` together with `cap` (= `data_.Capacity()`).
* `std::move` of an element is modelled by a parameter `mv : T → T` giving the
  value that a move leaves behind in the source slot (for trivially copyable
  types `mv = id`; for `std::unique_ptr`-like types `mv` is the constant
  null/empty value).  Transfers whose moved-from slots are destroyed
  immediately afterwards (the reallocation paths) do not observe `mv`, so the
  corresponding operations do not take it.
* A potentially throwing element copy is modelled by a failure predicate
  `cf : T → Bool` (`cf x = true` means copying `x` throws).  The fallible
  copy assignment returns the resulting state, a success flag (`false` means
  the exception propagated) and the list of raw-memory allocations performed
  (each entry the requested number of slots).
-/

namespace AdvVec

/-- Model of `RawMemory<T>`: the members `buffer_` (`none` = `nullptr`) and
`capacity_`. The element type plays no role at this level. -/
structure RawMemory where
  buffer : Option Nat
  capacity : Nat
deriving DecidableEq

/-- `RawMemory::Swap`: exchanges `buffer_` and `capacity_` of the two objects
(`std::swap` on both members). Returns the pair (this after, other after). -/
def RawMemory.swapRM (a b : RawMemory) : RawMemory × RawMemory :=
  (⟨b.buffer, b.capacity⟩, ⟨a.buffer, a.capacity⟩)

/-- `RawMemory::RawMemory(RawMemory&& other)`: initializes
`capacity_(std::move(other.capacity_))` and `buffer_ = std::move(other.buffer_)`.
`std::move` on scalar members just reads them, so `other` is left unchanged.
Returns (the new object, `other` after the construction). -/
def RawMemory.moveCtor (other : RawMemory) : RawMemory × RawMemory :=
  (⟨other.buffer, other.capacity⟩, other)

/-- `RawMemory::operator=(RawMemory&& rhs)`: `Swap(rhs)`.
Returns (this after, rhs after). -/
def RawMemory.moveAssign (self rhs : RawMemory) : RawMemory × RawMemory :=
  RawMemory.swapRM self rhs

variable {T : Type}

/-- Model of `Vector<T>`: `elems` is the sequence of live elements in slots
`[0, size_)` of `data_` (so `elems.length` = `size_`), `cap` = `data_.Capacity()`. -/
structure Vector (T : Type) where
  elems : List T
  cap : Nat
deriving DecidableEq

/-- `Vector()`: default construction, empty with a default `RawMemory`
(null buffer, capacity 0). -/
def Vector.empty : Vector T := ⟨[], 0⟩

/-- `Vector(size_t size)`: `data_(size)`, `size_(size)`, then
`uninitialized_value_construct_n`; `d` is the value-constructed element
(e.g. 0 for arithmetic types). -/
def Vector.sizedCtor (d : T) (n : Nat) : Vector T :=
  ⟨List.replicate n d, n⟩

/-- `Vector(const Vector& other)`: `data_(other.size_)`, `size_(other.size_)`,
then `uninitialized_copy_n` of all of `other`'s elements. Note the capacity of
the copy is `other.size_`, not `other`'s capacity. -/
def Vector.copyCtor (other : Vector T) : Vector T :=
  ⟨other.elems, other.elems.length⟩

/-- `Vector::Swap(other)`: swaps `data_` (via `RawMemory::Swap`) and `size_`.
Returns (this after, other after). -/
def Vector.swapV (self other : Vector T) : Vector T × Vector T :=
  (other, self)

/-- `Vector(Vector&& other)`: default-initializes members then `Swap(other)`.
Returns (the new object, `other` after the construction). -/
def Vector.moveCtor (other : Vector T) : Vector T × Vector T :=
  Vector.swapV Vector.empty other

/-- `Vector::operator=(Vector&& rhs)`: `Swap(rhs)`.
Returns (this after, rhs after). -/
def Vector.moveAssign (self rhs : Vector T) : Vector T × Vector T :=
  Vector.swapV self rhs

/-- One step of `std::uninitialized_copy_n`-style sequential copying with the
failure model `cf`: copies the whole list, or fails at the first element `x`
with `cf x = true` (the partially constructed prefix is destroyed by the
algorithm, so only success/failure and the full result are observable). -/
def copyAll (cf : T → Bool) : List T → Option (List T)
  | [] => some []
  | x :: xs => if cf x then none else (copyAll cf xs).map (fun l => x :: l)

/-- `std::copy(src, src + src.length, dst)`-style sequential copy assignment
over existing elements, with failure model `cf`: assigns `src` elements over
the front of `dst` one at a time; on the first failing element it stops,
leaving the already assigned front in place (second component `false` means
the copy threw there). -/
def assignOver (cf : T → Bool) : List T → List T → List T × Bool
  | [], d => (d, true)
  | _ :: _, [] => ([], true)
  | s :: ss, d :: ds =>
    if cf s then (d :: ds, false)
    else
      let r := assignOver cf ss ds
      (s :: r.1, r.2)

/-- `Vector::operator=(const Vector& rhs)` with the failure model `cf`;
`same` models the address check `this != &rhs` (`same = true` means `this`
and `rhs` are the same object).  Result: (state of `this` on return, whether
the assignment completed without an exception, sizes of raw allocations made).

Branches, exactly as in the source:
* `this == &rhs`: nothing happens.
* `rhs.size_ > data_.Capacity()`: `Vector rhs_copy(rhs); Swap(rhs_copy);` —
  the copy constructor allocates `rhs.size_` slots and copy-constructs all
  elements; on failure `this` is untouched.
* `rhs.Size() < size_`: `std::copy` of all of `rhs` over the front, then
  `destroy_n` of the trailing `size_ - rhs.size_` elements, `size_ = rhs.size_`.
* `rhs.Size() == size_` (the `dif_size == 0` sub-branch): `std::copy` of all
  of `rhs` over the existing elements.
* `rhs.Size() > size_` (the `dif_size > 0` sub-branch): `copy_n` of the first
  `size_` elements over the existing ones, then `uninitialized_copy_n` of the
  remaining `rhs.size_ - size_` elements into the free slots, `size_ = rhs.size_`. -/
def Vector.opAssignCopyE (cf : T → Bool) (same : Bool) (dst src : Vector T) :
    Vector T × Bool × List Nat :=
  if same then (dst, true, [])
  else if dst.cap < src.elems.length then
    match copyAll cf src.elems with
    | some l => (⟨l, src.elems.length⟩, true, [src.elems.length])
    | none => (dst, false, [src.elems.length])
  else if src.elems.length < dst.elems.length then
    let r := assignOver cf src.elems dst.elems
    if r.2 then (⟨r.1.take src.elems.length, dst.cap⟩, true, [])
    else (⟨r.1, dst.cap⟩, false, [])
  else if src.elems.length = dst.elems.length then
    let r := assignOver cf src.elems dst.elems
    (⟨r.1, dst.cap⟩, r.2, [])
  else
    let r := assignOver cf (src.elems.take dst.elems.length) dst.elems
    if r.2 then
      match copyAll cf (src.elems.drop dst.elems.length) with
      | some l2 => (⟨r.1 ++ l2, dst.cap⟩, true, [])
      | none => (⟨r.1, dst.cap⟩, false, [])
    else (⟨r.1, dst.cap⟩, false, [])

/-- `Vector::operator=(const Vector&)` when no element copy throws: the
fallible model with the never-failing copy predicate, projected to the
resulting state of `this`. -/
def Vector.opAssignCopy (same : Bool) (dst src : Vector T) : Vector T :=
  (Vector.opAssignCopyE (fun _ => false) same dst src).1

/-- The new capacity chosen by the reallocating branches of `PushBack`,
`EmplaceBack` and `Emplace`: `size_ == 0 ? 1 : size_ * 2` (evaluated when
`size_ == Capacity()`). -/
def newGrowCap (size : Nat) : Nat :=
  if size = 0 then 1 else size * 2

/-- `Vector::Reserve(new_capacity)`: no-op when `new_capacity <= Capacity()`;
otherwise allocates `new_capacity` slots, transfers (moves or copies) all
elements, destroys the originals and swaps the buffers in.  Either way the
element values are preserved (moved-from originals are destroyed at once). -/
def Vector.reserve (v : Vector T) (c : Nat) : Vector T :=
  if c ≤ v.cap then v else ⟨v.elems, c⟩

/-- `Vector::Resize(new_size)`: shrinking destroys the trailing elements;
growing reserves `new_size` and value-constructs (`d`) the new trailing
elements. -/
def Vector.resize (d : T) (v : Vector T) (n : Nat) : Vector T :=
  if n < v.elems.length then ⟨v.elems.take n, v.cap⟩
  else
    let r := Vector.reserve v n
    ⟨r.elems ++ List.replicate (n - v.elems.length) d, r.cap⟩

/-- `Vector::PushBack(value)` (both overloads have the same value-level
effect): when `size_ == Capacity()`, allocate `newGrowCap size_` slots,
construct the incoming value into slot `size_` of the new buffer, transfer
the old elements to slots `[0, size_)`, destroy the originals and swap;
otherwise placement-construct into slot `size_` of the current buffer. -/
def Vector.pushBack (v : Vector T) (x : T) : Vector T :=
  if v.elems.length = v.cap then
    ⟨v.elems ++ [x], newGrowCap v.elems.length⟩
  else
    ⟨v.elems ++ [x], v.cap⟩

/-- `Vector::EmplaceBack(args...)`: same choreography as `PushBack` with the
element constructed in place from `args...` (modelled by its value `x`). -/
def Vector.emplaceBack (v : Vector T) (x : T) : Vector T :=
  if v.elems.length = v.cap then
    ⟨v.elems ++ [x], newGrowCap v.elems.length⟩
  else
    ⟨v.elems ++ [x], v.cap⟩

/-- `Vector::PopBack()`: when `size_ > 0`, `destroy_at` the last element and
decrement `size_`; otherwise do nothing. -/
def Vector.popBack (v : Vector T) : Vector T :=
  if 0 < v.elems.length then ⟨v.elems.dropLast, v.cap⟩ else v

/-- The buffer contents after
`new (data_ + size_) T(std::move(*(data_.GetAddress() + size_ - 1)))` in the
in-place branch of `Emplace` (called with `l ≠ []`): the last element's value
is move-constructed into slot `size_`, leaving slot `size_ - 1` holding the
moved-from value `mv last`. -/
def emplaceStep1 (mv : T → T) (l : List T) : List T :=
  l.dropLast ++ (l.drop (l.length - 1)).map mv ++ l.drop (l.length - 1)

/-- `std::move_backward(l_first, l_last, d_last)` on one buffer, with source
range `[first, last_)` and destination range `[first + 1, last_ + 1)` (the
call in `Emplace` has `d_last = last_ + 1`).  Moves run from the back, so
every destination receives the source's current value; the only slot left
holding a moved-from value afterwards is `first`.  An empty source range
(`first ≥ last_`) does nothing. -/
def moveBackwardSeg (mv : T → T) (l : List T) (first last_ : Nat) : List T :=
  if first < last_ then
    l.take first ++ ((l.drop first).take 1).map mv
      ++ (l.take last_).drop first ++ l.drop (last_ + 1)
  else l

/-- `Vector::Emplace(pos, args...)` with `shift = pos - begin()` and the new
element's value `x`:
* `size_ == Capacity()`: allocate `newGrowCap size_` slots, construct `x` into
  slot `shift` of the new buffer, transfer `[0, shift)` and `[shift, size_)`
  of the old buffer to either side of it, destroy the originals, swap.
* otherwise, if `size_ != 0`: move-construct the last element into slot
  `size_` (`emplaceStep1`), `std::move_backward` the range `[shift, size_)`
  into `[shift + 1, size_ + 1)` (`moveBackwardSeg`), `destroy_at` slot
  `shift`, then construct `x` there (`List.set`).
* otherwise (`size_ == 0` with spare capacity): construct `x` into slot
  `shift` (only `shift = 0` is a valid call). -/
def Vector.emplaceAt (mv : T → T) (v : Vector T) (shift : Nat) (x : T) : Vector T :=
  if v.elems.length = v.cap then
    ⟨v.elems.take shift ++ x :: v.elems.drop shift, newGrowCap v.elems.length⟩
  else if v.elems.length ≠ 0 then
    let l1 := emplaceStep1 mv v.elems
    let l2 := moveBackwardSeg mv l1 shift v.elems.length
    ⟨l2.set shift x, v.cap⟩
  else
    ⟨[x], v.cap⟩

/-- `Vector::Insert(pos, value)` (both overloads): `Emplace(pos, value)`. -/
def Vector.insertAt (mv : T → T) (v : Vector T) (shift : Nat) (x : T) : Vector T :=
  Vector.emplaceAt mv v shift x

/-- The buffer contents after `std::move(begin() + shift + 1, end(), begin() + shift)`
in `Erase`: for a non-empty source range the elements after `shift` each move
one slot forward and the last slot is left holding its moved-from value; an
empty source range (`shift + 1 ≥ size_`) does nothing. -/
def shiftLeftFrom (mv : T → T) (l : List T) (shift : Nat) : List T :=
  if shift + 1 < l.length then
    l.take shift ++ l.drop (shift + 1) ++ (l.drop (l.length - 1)).map mv
  else l

/-- `Vector::Erase(pos)` with `shift = pos - begin()`: the forward move above,
then `PopBack()` destroys the vacated last slot. -/
def Vector.eraseAt (mv : T → T) (v : Vector T) (shift : Nat) : Vector T :=
  Vector.popBack ⟨shiftLeftFrom mv v.elems shift, v.cap⟩

/-- The class invariant of `Vector<T>`: `0 <= size_ <= Capacity()` with
exactly the slots `[0, size_)` live — in this model the live slots are the
list `elems`, so the residual proposition is `elems.length ≤ cap`. -/
abbrev Vinv (v : Vector T) : Prop := v.elems.length ≤ v.cap

end AdvVec

namespace AdvVec

variable {T : Type}

theorem copyAll_eq_some (cf : T → Bool) {l l2 : List T}
    (h : copyAll cf l = some l2) : l2 = l := by
  induction l generalizing l2 with
  | nil =>
    simp only [copyAll, Option.some.injEq] at h
    exact h.symm
  | cons x xs ih =>
    simp only [copyAll] at h
    split at h
    · simp at h
    · cases hxs : copyAll cf xs with
      | none => rw [hxs] at h; simp at h
      | some l3 =>
        rw [hxs] at h
        simp only [Option.map_some', Option.some.injEq] at h
        rw [← h, ih hxs]

theorem copyAll_nofail (l : List T) :
    copyAll (fun _ => false) l = some l := by
  induction l with
  | nil => rfl
  | cons x xs ih => simp [copyAll, ih]

theorem assignOver_len (cf : T → Bool) :
    ∀ s d : List T, ((assignOver cf s d).1).length = d.length
  | [], _ => rfl
  | _ :: _, [] => rfl
  | s :: ss, e :: ds => by
    simp only [assignOver]
    split
    · rfl
    · simpa using assignOver_len cf ss ds

theorem assignOver_nofail :
    ∀ s d : List T, s.length ≤ d.length →
      assignOver (fun _ => false) s d = (s ++ d.drop s.length, true)
  | [], d, _ => by simp [assignOver]
  | s :: ss, [], h => by simp at h
  | s :: ss, e :: ds, h => by
    simp only [assignOver, Bool.false_eq_true, if_false]
    rw [assignOver_nofail ss ds (by simpa using h)]
    simp

theorem opAssignCopy_false_eq (v w : Vector T) :
    Vector.opAssignCopy false v w
      = ⟨w.elems, if v.cap < w.elems.length then w.elems.length else v.cap⟩ := by
  unfold Vector.opAssignCopy Vector.opAssignCopyE
  simp only [Bool.false_eq_true, if_false]
  by_cases hg : v.cap < w.elems.length
  · rw [if_pos hg, copyAll_nofail, if_pos hg]
  · rw [if_neg hg, if_neg hg]
    by_cases hlt : w.elems.length < v.elems.length
    · rw [if_pos hlt, assignOver_nofail _ _ (Nat.le_of_lt hlt)]
      simp [List.take_left' rfl]
    · rw [if_neg hlt]
      by_cases heq : w.elems.length = v.elems.length
      · rw [if_pos heq, assignOver_nofail _ _ (Nat.le_of_eq heq)]
        simp [heq, List.drop_length]
      · rw [if_neg heq]
        have hle : v.elems.length ≤ w.elems.length := Nat.le_of_not_lt hlt
        rw [assignOver_nofail _ _ (by simp [Nat.min_eq_left hle]),
          copyAll_nofail]
        simp [Nat.min_eq_left hle, List.drop_length, List.take_append_drop]

end AdvVec

namespace AdvVec

variable {T : Type}

theorem opAssignCopyE_fst_inv (cf : T → Bool) (b : Bool) (v w : Vector T)
    (hv : Vinv v) : Vinv (Vector.opAssignCopyE cf b v w).1 := by
  have hv2 : v.elems.length ≤ v.cap := hv
  have hlen := assignOver_len cf w.elems v.elems
  have hlen2 := assignOver_len cf (w.elems.take v.elems.length) v.elems
  unfold Vector.opAssignCopyE
  dsimp only
  split
  · exact hv
  split
  · split
    · rename_i l hc
      simp [Vinv, copyAll_eq_some cf hc]
    · exact hv
  split
  · split
    · simp only [Vinv, List.length_take]
      omega
    · simp only [Vinv]
      omega
  split
  · simp only [Vinv]
    omega
  · split
    · split
      · rename_i l2 hc2
        have h2 : l2 = w.elems.drop v.elems.length := copyAll_eq_some cf hc2
        simp only [Vinv, List.length_append, h2, List.length_drop]
        omega
      · simp only [Vinv]
        omega
    · simp only [Vinv]
      omega

theorem newGrowCap_eq_max (n : Nat) : newGrowCap n = max 1 (2 * n) := by
  unfold newGrowCap
  split <;> omega

theorem emplaceStep1_length (mv : T → T) (l : List T) (h : l ≠ []) :
    (emplaceStep1 mv l).length = l.length + 1 := by
  have hpos : 0 < l.length := List.length_pos.mpr h
  unfold emplaceStep1
  simp only [List.length_append, List.length_dropLast, List.length_map,
    List.length_drop]
  omega

theorem emplaceAt_length (mv : T → T) (v : Vector T) (p : Nat) (x : T)
    (hp : p ≤ v.elems.length) :
    (Vector.emplaceAt mv v p x).elems.length = v.elems.length + 1 := by
  unfold Vector.emplaceAt
  split
  · simp only [List.length_append, List.length_take, List.length_cons,
      List.length_drop]
    omega
  split
  · rename_i hfull hne
    have h1 : (emplaceStep1 mv v.elems).length = v.elems.length + 1 :=
      emplaceStep1_length mv v.elems (by
        intro hnil
        exact hne (by simp [hnil]))
    rw [List.length_set]
    unfold moveBackwardSeg
    split
    · simp only [List.length_append, List.length_take, List.length_map,
        List.length_drop, h1]
      omega
    · exact h1
  · rename_i hfull hne
    have h0 : v.elems.length = 0 := by
      by_contra hne2
      exact hne hne2
    simp [h0]

theorem emplaceAt_cap (mv : T → T) (v : Vector T) (p : Nat) (x : T) :
    (Vector.emplaceAt mv v p x).cap
      = if v.elems.length = v.cap then newGrowCap v.elems.length else v.cap := by
  unfold Vector.emplaceAt
  split
  · rfl
  · split <;> rfl

theorem shiftLeftFrom_length (mv : T → T) (l : List T) (p : Nat) :
    (shiftLeftFrom mv l p).length = l.length := by
  unfold shiftLeftFrom
  split
  · rename_i h
    simp only [List.length_append, List.length_take, List.length_drop,
      List.length_map]
    omega
  · rfl

end AdvVec

namespace AdvVec

variable {T : Type}

/-- C1 counterexample: move-assigning A = ([1,2], cap 2) into B = ([7], cap 1)
does not leave A empty — `operator=(Vector&&)` is `Swap(rhs)`, so A ends up
holding the previous state of B (length 1, capacity 1). -/
theorem moveAssign_source_not_emptied :
    ¬ (((Vector.moveAssign (⟨[7], 1⟩ : Vector Nat) ⟨[1, 2], 2⟩).2).elems.length = 0
       ∧ ((Vector.moveAssign (⟨[7], 1⟩ : Vector Nat) ⟨[1, 2], 2⟩).2).cap = 0) := by
  decide

/-- C1 (amended): move-constructing B from A leaves A empty (length 0,
capacity 0) and B holds exactly what A held; move-assigning A into B makes B
hold exactly what A held (elements, length and capacity) and leaves A holding
the previous state of B — so A is empty afterwards only when B was. -/
theorem move_semantics_amended (a b : Vector T) :
    Vector.moveCtor a = (a, (Vector.empty : Vector T))
    ∧ Vector.moveAssign b a = (a, b) :=
  ⟨rfl, rfl⟩

/-- C2 (code evaluated at the failing input): move-constructing from a
RawMemory owning a block (address 100, capacity 2) leaves the source
unchanged — still owning the same block, not at the null/zero state — so the
new object and the source alias one block (a double-free once both are
destroyed); and move assignment swaps the two states instead of nulling the
source. -/
theorem rawMemory_move_source_kept :
    RawMemory.moveCtor ⟨some 100, 2⟩ = (⟨some 100, 2⟩, ⟨some 100, 2⟩)
    ∧ (RawMemory.moveCtor ⟨some 100, 2⟩).2 ≠ ⟨none, 0⟩
    ∧ RawMemory.moveAssign ⟨some 5, 3⟩ ⟨some 100, 2⟩
        = (⟨some 100, 2⟩, ⟨some 5, 3⟩) := by
  decide

/-- C3 (code evaluated at the failing inputs): for an element type whose move
empties the source (modelled by mv = constant 0), the in-place branch of
`Emplace`/`Insert` leaves the last original element moved-from: inserting 9
at index 1 of [7] (capacity 2) yields [0, 9] instead of [7, 9], and inserting
9 at index 0 of [7, 8] (capacity 3) yields [9, 7, 0] instead of [9, 7, 8].
For a value-preserving move (mv = identity, e.g. int) the claimed behaviour
does hold, as on the reallocating example [1,2,3] ++ 9 at index 1. -/
theorem emplace_inplace_moved_from_last :
    Vector.emplaceAt (fun _ => 0) (⟨[7], 2⟩ : Vector Nat) 1 9 = ⟨[0, 9], 2⟩
    ∧ Vector.emplaceAt (fun _ => 0) (⟨[7], 2⟩ : Vector Nat) 1 9 ≠ ⟨[7, 9], 2⟩
    ∧ Vector.emplaceAt (fun _ => 0) (⟨[7, 8], 3⟩ : Vector Nat) 0 9 = ⟨[9, 7, 0], 3⟩
    ∧ Vector.insertAt (fun _ => 0) (⟨[7, 8], 3⟩ : Vector Nat) 0 9 ≠ ⟨[9, 7, 8], 3⟩
    ∧ Vector.emplaceAt (fun t => t) (⟨[1, 2, 3], 3⟩ : Vector Nat) 1 9
        = ⟨[1, 9, 2, 3], 6⟩ := by
  decide

/-- C4: copy assignment into a destination whose capacity is smaller than the
source length makes exactly one allocation, of exactly source.length slots;
on success the destination is element-equal to the source with capacity
source.length; if the element copying fails, the destination is left exactly
as it was (strong exception guarantee). -/
theorem copyAssign_grow_strong (cf : T → Bool) (dst src : Vector T)
    (h : dst.cap < src.elems.length) :
    (Vector.opAssignCopyE cf false dst src).2.2 = [src.elems.length]
    ∧ ((Vector.opAssignCopyE cf false dst src).2.1 = true →
        (Vector.opAssignCopyE cf false dst src).1 = ⟨src.elems, src.elems.length⟩)
    ∧ ((Vector.opAssignCopyE cf false dst src).2.1 = false →
        (Vector.opAssignCopyE cf false dst src).1 = dst) := by
  unfold Vector.opAssignCopyE
  simp only [Bool.false_eq_true, if_false, if_pos h]
  cases hc : copyAll cf src.elems with
  | none => simp
  | some l =>
    have hl : l = src.elems := copyAll_eq_some cf hc
    simp [hl]

/-- Witness for C4 at a concrete input: destination ([1], cap 1), source
([5,5], cap 2), no copy fails; one allocation of 2 slots is made. -/
theorem copyAssign_grow_strong_wit :
    (⟨[1], 1⟩ : Vector Nat).cap < ([5, 5] : List Nat).length
    ∧ (Vector.opAssignCopyE (fun _ => false) false (⟨[1], 1⟩ : Vector Nat)
        ⟨[5, 5], 2⟩).2.2 = [2] := by
  refine ⟨by decide, ?_⟩
  have h := copyAssign_grow_strong (fun _ => false) (⟨[1], 1⟩ : Vector Nat)
    ⟨[5, 5], 2⟩ (by decide)
  simpa using h.1

/-- C5: copy assignment from a shorter source into a destination with more
elements (capacity therefore sufficient) copy-assigns the source elements over
the front, destroys the excess trailing elements, sets the length to the
source length and leaves the capacity unchanged. -/
theorem copyAssign_smaller_reuse (dst src : Vector T)
    (hlt : src.elems.length < dst.elems.length) (hinv : Vinv dst) :
    Vector.opAssignCopy false dst src = ⟨src.elems, dst.cap⟩ := by
  have hinv2 : dst.elems.length ≤ dst.cap := hinv
  rw [opAssignCopy_false_eq]
  rw [if_neg (by omega)]

/-- Witness for C5 at the concrete scenario of the specification: assigning
([5,5], length 2) into ([1,2,3], length 3, capacity 3) yields [5,5] with
length 2 and capacity still 3. -/
theorem copyAssign_smaller_reuse_wit :
    ([5, 5] : List Nat).length < ([1, 2, 3] : List Nat).length
    ∧ Vinv (⟨[1, 2, 3], 3⟩ : Vector Nat)
    ∧ Vector.opAssignCopy false (⟨[1, 2, 3], 3⟩ : Vector Nat) ⟨[5, 5], 2⟩
        = ⟨[5, 5], 3⟩ :=
  ⟨by decide, by decide,
    copyAssign_smaller_reuse (⟨[1, 2, 3], 3⟩ : Vector Nat) ⟨[5, 5], 2⟩
      (by decide) (by decide)⟩

end AdvVec

namespace AdvVec

variable {T : Type}

/-- C6 counterexample: a failing copy assignment on the capacity-sufficient
reuse path does not leave the old state. Destination ([0,0], cap 2), source
([1,2], cap 2), copying the element 2 throws: the code first copy-assigns 1
over slot 0 and then propagates the exception, leaving ([1,0], cap 2), which
differs from the pre-assignment state ([0,0], cap 2). -/
theorem copyAssign_reuse_partial_fail :
    Vector.opAssignCopyE (fun t => t == 2) false (⟨[0, 0], 2⟩ : Vector Nat)
        ⟨[1, 2], 2⟩
      = (⟨[1, 0], 2⟩, false, [])
    ∧ (⟨[1, 0], 2⟩ : Vector Nat) ≠ ⟨[0, 0], 2⟩ := by
  decide

/-- C6 (amended): after every public operation the invariant
0 ≤ length ≤ capacity holds, with exactly the live elements in slots
[0, length); a failed copy assignment also leaves a state satisfying the
invariant, though on the capacity-sufficient reuse path it may be a partially
updated sequence rather than the old state. -/
theorem invariant_all_ops (v w : Vector T) (d x : T) (mv : T → T)
    (cf : T → Bool) (n c p q : Nat) (hv : Vinv v) (hw : Vinv w)
    (hp : p ≤ v.elems.length) (hq : q < v.elems.length) :
    Vinv (Vector.empty : Vector T)
    ∧ Vinv (Vector.sizedCtor d n)
    ∧ Vinv (Vector.copyCtor v)
    ∧ Vinv (Vector.moveCtor v).1
    ∧ Vinv (Vector.moveCtor v).2
    ∧ (∀ b, Vinv (Vector.opAssignCopy b v w))
    ∧ Vinv (Vector.moveAssign v w).1
    ∧ Vinv (Vector.moveAssign v w).2
    ∧ Vinv (Vector.reserve v c)
    ∧ Vinv (Vector.resize d v n)
    ∧ Vinv (Vector.pushBack v x)
    ∧ Vinv (Vector.emplaceBack v x)
    ∧ Vinv (Vector.emplaceAt mv v p x)
    ∧ Vinv (Vector.insertAt mv v p x)
    ∧ Vinv (Vector.eraseAt mv v q)
    ∧ Vinv (Vector.popBack v)
    ∧ Vinv (Vector.swapV v w).1
    ∧ Vinv (Vector.swapV v w).2
    ∧ Vinv (Vector.opAssignCopyE cf false v w).1 := by
  have hv2 : v.elems.length ≤ v.cap := hv
  refine ⟨?_, ?_, ?_, ?_, ?_, ?_, ?_, ?_, ?_, ?_, ?_, ?_, ?_, ?_, ?_, ?_, ?_,
    ?_, ?_⟩
  · simp [Vector.empty, Vinv]
  · simp [Vector.sizedCtor, Vinv]
  · simp [Vector.copyCtor, Vinv]
  · exact hv
  · simp [Vector.moveCtor, Vector.swapV, Vector.empty, Vinv]
  · intro b
    exact opAssignCopyE_fst_inv (fun _ => false) b v w hv
  · exact hw
  · exact hv
  · unfold Vector.reserve
    split
    · exact hv
    · simp only [Vinv]
      omega
  · unfold Vector.resize Vector.reserve
    dsimp only
    split
    · simp only [Vinv, List.length_take]
      omega
    · split
      · simp only [Vinv, List.length_append, List.length_replicate]
        omega
      · simp only [Vinv, List.length_append, List.length_replicate]
        omega
  · unfold Vector.pushBack
    split
    · simp only [Vinv, List.length_append, List.length_cons, List.length_nil,
        newGrowCap_eq_max]
      omega
    · simp only [Vinv, List.length_append, List.length_cons, List.length_nil]
      omega
  · unfold Vector.emplaceBack
    split
    · simp only [Vinv, List.length_append, List.length_cons, List.length_nil,
        newGrowCap_eq_max]
      omega
    · simp only [Vinv, List.length_append, List.length_cons, List.length_nil]
      omega
  · have hl := emplaceAt_length mv v p x hp
    have hc2 := emplaceAt_cap mv v p x
    simp only [Vinv, hl, hc2]
    split
    · rw [newGrowCap_eq_max]
      omega
    · omega
  · have hl := emplaceAt_length mv v p x hp
    have hc2 := emplaceAt_cap mv v p x
    unfold Vector.insertAt
    simp only [Vinv, hl, hc2]
    split
    · rw [newGrowCap_eq_max]
      omega
    · omega
  · have hs := shiftLeftFrom_length mv v.elems q
    unfold Vector.eraseAt Vector.popBack
    dsimp only
    split
    · simp only [Vinv, List.length_dropLast]
      omega
    · simp only [Vinv]
      omega
  · unfold Vector.popBack
    split
    · simp only [Vinv, List.length_dropLast]
      omega
    · exact hv
  · exact hw
  · exact hv
  · exact opAssignCopyE_fst_inv cf false v w hv

/-- Witness for C6 at concrete inputs: v = ([1,2,3], cap 3), w = ([5], cap 2),
insertion position 1, erase position 0; the invariant holds after pushBack. -/
theorem invariant_all_ops_wit :
    Vinv (⟨[1, 2, 3], 3⟩ : Vector Nat) ∧ Vinv (⟨[5], 2⟩ : Vector Nat)
    ∧ 1 ≤ ([1, 2, 3] : List Nat).length ∧ 0 < ([1, 2, 3] : List Nat).length
    ∧ Vinv (Vector.pushBack (⟨[1, 2, 3], 3⟩ : Vector Nat) 9) := by
  have h := invariant_all_ops (⟨[1, 2, 3], 3⟩ : Vector Nat)
    (⟨[5], 2⟩ : Vector Nat) 0 9 (fun t => t) (fun _ => false) 2 4 1 0
    (by decide) (by decide) (by decide) (by decide)
  exact ⟨by decide, by decide, by decide, by decide,
    h.2.2.2.2.2.2.2.2.2.2.1⟩

/-- C7: whenever an append, emplace back or emplace must reallocate (length
has reached capacity), the newly chosen capacity is max(1, 2 * capacity):
1 when the capacity was 0, exactly double otherwise. -/
theorem growth_doubling (v : Vector T) (x : T) (mv : T → T) (p : Nat)
    (hfull : v.elems.length = v.cap) :
    (Vector.pushBack v x).cap = max 1 (2 * v.cap)
    ∧ (Vector.emplaceBack v x).cap = max 1 (2 * v.cap)
    ∧ (Vector.emplaceAt mv v p x).cap = max 1 (2 * v.cap) := by
  refine ⟨?_, ?_, ?_⟩
  · simp [Vector.pushBack, hfull, newGrowCap_eq_max]
  · simp [Vector.emplaceBack, hfull, newGrowCap_eq_max]
  · rw [emplaceAt_cap, if_pos hfull, newGrowCap_eq_max, hfull]

/-- Witness for C7: a full vector ([1,2], cap 2) grows to capacity 4 on
pushBack. -/
theorem growth_doubling_wit :
    ([1, 2] : List Nat).length = (⟨[1, 2], 2⟩ : Vector Nat).cap
    ∧ (Vector.pushBack (⟨[1, 2], 2⟩ : Vector Nat) 9).cap = max 1 (2 * 2) :=
  ⟨by decide,
    (growth_doubling (⟨[1, 2], 2⟩ : Vector Nat) 9 (fun t => t) 0 (by decide)).1⟩

/-- C8: Reserve is observably idempotent: when the requested capacity is
already available it changes nothing (length, elements and capacity are all
unchanged), and reserving the same capacity twice equals reserving it once. -/
theorem reserve_idem (v : Vector T) (c : Nat) :
    (c ≤ v.cap → Vector.reserve v c = v)
    ∧ Vector.reserve (Vector.reserve v c) c = Vector.reserve v c := by
  have h1 : ∀ u : Vector T, c ≤ u.cap → Vector.reserve u c = u := by
    intro u hu
    unfold Vector.reserve
    rw [if_pos hu]
  constructor
  · exact h1 v
  · by_cases h : c ≤ v.cap
    · rw [h1 v h, h1 v h]
    · have h2 : Vector.reserve v c = ⟨v.elems, c⟩ := by
        unfold Vector.reserve
        rw [if_neg h]
      rw [h2]
      exact h1 _ (Nat.le_refl c)

/-- Witness for C8: reserving 1 on a vector of capacity 3 is a no-op, and
reserving 5 twice on a vector of capacity 1 equals reserving 5 once. -/
theorem reserve_idem_wit :
    (1 ≤ (⟨[7], 3⟩ : Vector Nat).cap
      ∧ Vector.reserve (⟨[7], 3⟩ : Vector Nat) 1 = ⟨[7], 3⟩)
    ∧ Vector.reserve (Vector.reserve (⟨[7], 1⟩ : Vector Nat) 5) 5
        = Vector.reserve (⟨[7], 1⟩ : Vector Nat) 5 :=
  ⟨⟨by decide, (reserve_idem (⟨[7], 3⟩ : Vector Nat) 1).1 (by decide)⟩,
    (reserve_idem (⟨[7], 1⟩ : Vector Nat) 5).2⟩

/-- C9: PopBack on an empty vector is a safe no-op; on a non-empty vector it
destroys exactly the last live element (the remaining elements are the
original ones without the last) and decrements the length by one, leaving the
capacity unchanged. -/
theorem popBack_spec (v : Vector T) :
    (v.elems.length = 0 → Vector.popBack v = v)
    ∧ (0 < v.elems.length →
        (Vector.popBack v).elems = v.elems.dropLast
        ∧ (Vector.popBack v).cap = v.cap
        ∧ (Vector.popBack v).elems.length + 1 = v.elems.length) := by
  unfold Vector.popBack
  constructor
  · intro h
    rw [if_neg (by omega)]
  · intro h
    rw [if_pos h]
    refine ⟨rfl, rfl, ?_⟩
    show v.elems.dropLast.length + 1 = v.elems.length
    rw [List.length_dropLast]
    omega

/-- Witness for C9: popBack on ([], cap 0) stays empty; popBack on
([1,2], cap 5) yields [1]. -/
theorem popBack_spec_wit :
    (([] : List Nat).length = 0
      ∧ Vector.popBack (⟨[], 0⟩ : Vector Nat) = ⟨[], 0⟩)
    ∧ (0 < ([1, 2] : List Nat).length
      ∧ (Vector.popBack (⟨[1, 2], 5⟩ : Vector Nat)).elems = [1]) := by
  constructor
  · exact ⟨rfl, (popBack_spec (⟨[], 0⟩ : Vector Nat)).1 rfl⟩
  · refine ⟨by decide, ?_⟩
    have h := (popBack_spec (⟨[1, 2], 5⟩ : Vector Nat)).2 (by decide)
    rw [h.1]
    decide

/-- C10: copy-assigning a vector to itself is the identity: the address check
`this != &rhs` makes the operation a no-op, so length, capacity and all
element values are unchanged. -/
theorem selfAssign_identity (v : Vector T) :
    Vector.opAssignCopy true v v = v := rfl

end AdvVec
